import Mathlib

/-!
Verification of the protocol-normalization layer of the `aimodel` chat client.

The definitions below are a shallow embedding of the Go source files
(`schema.go`, `stream.go`, `openai_stream.go`, the Anthropic translator and
stream decoder).  Go strings become `String`, Go `int` becomes `Int`,
Go slices become `List`, Go `nil`-able slices that are tested against `nil`
become `Option (List _)`, and a Go function that can panic (out-of-range
slice index) returns `Option`.  JSON (un)marshalling performed by the Go
standard library is treated as the boundary of the model: already-parsed
values are passed in, and raw JSON payloads (`json.RawMessage`) are carried
as opaque strings.
-/

namespace Aimodel

/-- Image URL of a content part (`ImageURL` in `schema.go`). -/
structure ImageURL where
  url : String
  detail : String
deriving Repr, DecidableEq

/-- One part of a multimodal content array (`ContentPart` in `schema.go`). -/
structure ContentPart where
  type : String
  text : String
  imageURL : Option ImageURL
deriving Repr, DecidableEq

/-- Chat message content (`Content` in `schema.go`).  The Go struct holds both
an unexported `text` string and an unexported `parts` slice; `parts = none`
models the Go `nil` slice (the plain-text variant). -/
structure Content where
  text : String
  parts : Option (List ContentPart)
deriving Repr, DecidableEq

/-- `NewTextContent` of `schema.go`: content built from a plain string. -/
def NewTextContent (text : String) : Content :=
  { text := text, parts := none }

/-- `NewPartsContent` of `schema.go`: content built from a list of parts. -/
def NewPartsContent (parts : List ContentPart) : Content :=
  { text := "", parts := some parts }

/-- `Content.Text` of `schema.go`: the text field when `parts` is nil,
otherwise the builder loop appending the text of every `"text"`-typed part. -/
def Content.Text (c : Content) : String :=
  match c.parts with
  | none => c.text
  | some ps => ps.foldl (fun b p => if p.type = "text" then b ++ p.text else b) ""

/-- A function call carried by a tool call (`FunctionCall` in `schema.go`). -/
structure FunctionCall where
  name : String
  arguments : String
deriving Repr, DecidableEq

/-- A model-issued tool call (`ToolCall` in `schema.go`).  `index` is `Int`
because the Go field is a machine `int` and may be negative on the wire. -/
structure ToolCall where
  index : Int
  id : String
  type : String
  function : FunctionCall
deriving Repr, DecidableEq

/-- `ToolCall.Merge` of `schema.go`: non-empty incoming `ID`/`Type`/`Name`
overwrite, incoming `Arguments` is appended. -/
def ToolCall.Merge (tc delta : ToolCall) : ToolCall :=
  { index := tc.index
    id := if delta.id ≠ "" then delta.id else tc.id
    type := if delta.type ≠ "" then delta.type else tc.type
    function :=
      { name := if delta.function.name ≠ "" then delta.function.name else tc.function.name
        arguments := tc.function.arguments ++ delta.function.arguments } }

/-- A chat message (`Message` in `schema.go`); roles are Go strings. -/
structure Message where
  role : String
  content : Content
  toolCallID : String
  toolCalls : List ToolCall
deriving Repr, DecidableEq

/-- The placeholder entry appended by `AppendDelta`'s growth loop:
`ToolCall{Index: len(m.ToolCalls)}`, every other field zero. -/
def placeholderToolCall (n : Nat) : ToolCall :=
  { index := (n : Int), id := "", type := "", function := { name := "", arguments := "" } }

/-- The `for idx >= len(m.ToolCalls)` growth loop of `Message.AppendDelta`:
append placeholder entries (index = position) until the length exceeds `idx`. -/
def growToolCalls (l : List ToolCall) (idx : Int) : List ToolCall :=
  if _h : (l.length : Int) ≤ idx then
    growToolCalls (l ++ [placeholderToolCall l.length]) idx
  else l
termination_by (idx + 1 - l.length).toNat
decreasing_by
  simp only [List.length_append, List.length_cons, List.length_nil]
  omega

/-- One iteration of the tool-call loop body of `Message.AppendDelta`: grow,
then merge into the entry at `dtc.Index`.  `none` models the Go runtime panic
of the slice access `m.ToolCalls[idx]` when the index is out of range (after
growth this happens exactly when `idx` is negative). -/
def mergeToolCallAt (l : List ToolCall) (dtc : ToolCall) : Option (List ToolCall) :=
  let g := growToolCalls l dtc.index
  if h : 0 ≤ dtc.index ∧ dtc.index.toNat < g.length then
    some (g.set dtc.index.toNat ((g.get ⟨dtc.index.toNat, h.2⟩).Merge dtc))
  else
    none

/-- `Message.AppendDelta` of `schema.go`: append the delta's hidden content
text, then fold the delta's tool calls through the grow-and-merge loop.
`none` models the panic of an out-of-range index. -/
def Message.AppendDelta (m delta : Message) : Option Message :=
  match delta.toolCalls.foldlM mergeToolCallAt m.toolCalls with
  | none => none
  | some tcs =>
      some { m with
              content := { m.content with text := m.content.text ++ delta.content.text }
              toolCalls := tcs }

/-- Token usage of a response (`Usage` in `schema.go`). -/
structure Usage where
  promptTokens : Int
  completionTokens : Int
  totalTokens : Int
deriving Repr, DecidableEq

/-- A completion choice (`Choice` in `schema.go`); `finishReason` is the Go
string type `FinishReason`. -/
structure Choice where
  index : Int
  message : Message
  finishReason : String
deriving Repr, DecidableEq

/-- Error object embedded in an API response body (`Error` in `schema.go`). -/
structure ErrorObj where
  code : String
  message : String
  param : String
  type : String
deriving Repr, DecidableEq

/-- A JSON value as carried by a Go `any` field after `encoding/json`
unmarshalling (string, number, bool, null, array, or `map[string]any`). -/
inductive JsonValue where
  | null : JsonValue
  | bool (b : Bool) : JsonValue
  | num (n : Int) : JsonValue
  | str (s : String) : JsonValue
  | arr (l : List JsonValue) : JsonValue
  | obj (m : List (String × JsonValue)) : JsonValue

/-- Go map lookup with type assertion to `map[string]any` left to the caller:
first binding of the key in the association list. -/
def lookupKey (m : List (String × JsonValue)) (k : String) : Option JsonValue :=
  match m.find? (fun kv => kv.1 = k) with
  | some kv => some kv.2
  | none => none

/-- A tool definition (`Tool` with embedded `FunctionDefinition` in
`schema.go`); `parameters` is an `any` JSON schema. -/
structure Tool where
  type : String
  name : String
  description : String
  parameters : Option JsonValue

/-- A canonical chat request (`ChatRequest` in `schema.go`).  Float-valued
generation parameters are opaque pass-through values, modelled as rationals;
`maxTokens`, `seed`, `n` are machine ints.  `toolChoice` is an `any` field. -/
structure ChatRequest where
  model : String
  messages : List Message
  temperature : Option Rat
  maxTokens : Option Int
  topP : Option Rat
  n : Option Int
  stop : List String
  seed : Option Int
  user : String
  stream : Bool
  tools : List Tool
  toolChoice : Option JsonValue

/-- A canonical chat response (`ChatResponse` in `schema.go`). -/
structure ChatResponse where
  id : String
  object : String
  created : Int
  model : String
  choices : List Choice
  usage : Usage
  error : Option ErrorObj
deriving Repr, DecidableEq

/-- A choice inside a stream chunk (`StreamChunkChoice` in `schema.go`). -/
structure StreamChunkChoice where
  index : Int
  delta : Message
  finishReason : Option String
deriving Repr, DecidableEq

/-- One streaming increment (`StreamChunk` in `schema.go`). -/
structure StreamChunk where
  id : String
  object : String
  created : Int
  model : String
  choices : List StreamChunkChoice
deriving Repr, DecidableEq

/-- A content block of the Anthropic wire shape (`anthropicContentBlock`).
`input` carries the block's raw JSON (`json.RawMessage`) as an opaque string. -/
structure AnthropicContentBlock where
  type : String
  text : String
  id : String
  name : String
  input : String
  toolUseID : String
  resultContent : String
deriving Repr, DecidableEq

/-- Anthropic usage object (`anthropicUsage`). -/
structure AnthropicUsage where
  inputTokens : Int
  outputTokens : Int
deriving Repr, DecidableEq

/-- An Anthropic Messages API response (`anthropicResponse`). -/
structure AnthropicResponse where
  id : String
  type : String
  role : String
  model : String
  content : List AnthropicContentBlock
  stopReason : String
  stopSequence : Option String
  usage : AnthropicUsage
deriving Repr, DecidableEq

/-- The body of a translated Anthropic message (`anthropicMessage.Content` is a
`json.RawMessage` holding either a marshalled plain string or a marshalled
block list; the model keeps the pre-marshal value). -/
inductive AnthropicMsgContent where
  | plain (s : String) : AnthropicMsgContent
  | blocks (bs : List AnthropicContentBlock) : AnthropicMsgContent
deriving Repr, DecidableEq

/-- A message of the Anthropic request shape (`anthropicMessage`). -/
structure AnthropicMessage where
  role : String
  content : AnthropicMsgContent
deriving Repr, DecidableEq

/-- A tool of the Anthropic request shape (`anthropicTool`). -/
structure AnthropicTool where
  name : String
  description : String
  inputSchema : Option JsonValue

/-- Anthropic tool-choice policy (`anthropicToolChoice`); an absent `name` is
the empty string (`omitempty`). -/
structure AnthropicToolChoice where
  type : String
  name : String
deriving Repr, DecidableEq

/-- An Anthropic Messages API request (`anthropicRequest`). -/
structure AnthropicRequest where
  model : String
  messages : List AnthropicMessage
  system : String
  maxTokens : Int
  temperature : Option Rat
  topP : Option Rat
  stopSequences : List String
  stream : Bool
  tools : List AnthropicTool
  toolChoice : Option AnthropicToolChoice

/-- `anthropicDefaultMaxTokens` of the Anthropic translator. -/
def anthropicDefaultMaxTokens : Int := 4096

/-- `mapAnthropicStopReason`: the vendor stop reason mapped into the canonical
`FinishReason` string, unknown strings passing through unchanged. -/
def mapAnthropicStopReason (reason : String) : String :=
  if reason = "end_turn" ∨ reason = "stop_sequence" then "stop"
  else if reason = "max_tokens" then "length"
  else if reason = "tool_use" then "tool_calls"
  else reason

/-- `toAnthropicMessage`: translate one non-system canonical message.  The
`json.Marshal` calls of the source cannot fail on the modelled values, so the
translation is total here. -/
def toAnthropicMessage (m : Message) : AnthropicMessage :=
  if m.role = "tool" then
    { role := "user"
      content := .blocks [{ type := "tool_result", text := "", id := "", name := ""
                            input := "", toolUseID := m.toolCallID
                            resultContent := m.content.Text }] }
  else if m.role = "assistant" ∧ m.toolCalls ≠ [] then
    { role := m.role
      content := .blocks
        ((if m.content.Text ≠ "" then
            [{ type := "text", text := m.content.Text, id := "", name := ""
               input := "", toolUseID := "", resultContent := "" }]
          else []) ++
         m.toolCalls.map (fun tc =>
           { type := "tool_use", text := "", id := tc.id, name := tc.function.name
             input := tc.function.arguments, toolUseID := "", resultContent := "" })) }
  else
    { role := m.role, content := .plain m.content.Text }

/-- `convertToolChoice`: normalize the `any`-typed canonical tool choice into
the Anthropic policy; `none` models the Go `nil` result (field omitted). -/
def convertToolChoice (tc : JsonValue) : Option AnthropicToolChoice :=
  match tc with
  | .str v =>
      if v = "auto" then some { type := "auto", name := "" }
      else if v = "required" then some { type := "any", name := "" }
      else none
  | .obj m =>
      match lookupKey m "function" with
      | some (.obj fn) =>
          match lookupKey fn "name" with
          | some (.str name) => some { type := "tool", name := name }
          | _ => none
      | _ => none
  | _ => none

/-- One iteration of the message loop of `toAnthropicRequest`: a system
message is folded into the `system` string (separator `"\n"` only when the
accumulator is already non-empty), anything else is translated and appended. -/
def anthropicMessageStep (acc : String × List AnthropicMessage) (m : Message) :
    String × List AnthropicMessage :=
  if m.role = "system" then
    (if acc.1 ≠ "" then acc.1 ++ "\n" ++ m.content.Text else acc.1 ++ m.content.Text, acc.2)
  else
    (acc.1, acc.2 ++ [toAnthropicMessage m])

/-- `toAnthropicRequest`: translate a canonical request into the Anthropic
request shape.  The only error paths of the source are `json.Marshal` calls
that cannot fail on modelled values, so the translation is total here. -/
def toAnthropicRequest (req : ChatRequest) : AnthropicRequest :=
  let sysMsgs := req.messages.foldl anthropicMessageStep ("", [])
  { model := req.model
    messages := sysMsgs.2
    system := sysMsgs.1
    maxTokens := match req.maxTokens with
                 | some v => v
                 | none => anthropicDefaultMaxTokens
    temperature := req.temperature
    topP := req.topP
    stopSequences := if req.stop.length > 0 then req.stop else []
    stream := req.stream
    tools := req.tools.map (fun t =>
      { name := t.name, description := t.description, inputSchema := t.parameters })
    toolChoice := match req.toolChoice with
                  | some tc => convertToolChoice tc
                  | none => none }

/-- One iteration of the content-block loop of `fromAnthropicResponse`:
`"text"` blocks collect their text, `"tool_use"` blocks append a canonical
tool call whose index is the current tool-call count. -/
def anthropicBlockStep (acc : List String × List ToolCall) (block : AnthropicContentBlock) :
    List String × List ToolCall :=
  if block.type = "text" then
    (acc.1 ++ [block.text], acc.2)
  else if block.type = "tool_use" then
    (acc.1, acc.2 ++ [{ index := (acc.2.length : Int), id := block.id, type := "function"
                        function := { name := block.name, arguments := block.input } }])
  else
    acc

/-- `strings.Join(parts, "\n")` of the Go standard library. -/
def joinNL : List String → String
  | [] => ""
  | [t] => t
  | t :: r :: rs => t ++ "\n" ++ joinNL (r :: rs)

/-- `fromAnthropicResponse`: translate an Anthropic response into the
canonical `ChatResponse` with a single assistant choice. -/
def fromAnthropicResponse (ar : AnthropicResponse) : ChatResponse :=
  let acc := ar.content.foldl anthropicBlockStep ([], [])
  let msg : Message :=
    { role := "assistant"
      content := if acc.1.length > 0 then NewTextContent (joinNL acc.1)
                 else { text := "", parts := none }
      toolCallID := ""
      toolCalls := acc.2 }
  { id := ar.id
    object := "chat.completion"
    created := 0
    model := ar.model
    choices := [{ index := 0, message := msg
                  finishReason := mapAnthropicStopReason ar.stopReason }]
    usage := { promptTokens := ar.usage.inputTokens
               completionTokens := ar.usage.outputTokens
               totalTokens := ar.usage.inputTokens + ar.usage.outputTokens }
    error := none }

/-- A `content_block_delta` payload (`anthropicDelta`). -/
structure AnthropicDelta where
  type : String
  text : String
  partialJSON : String
deriving Repr, DecidableEq

/-- The `delta` object of a `message_delta` event (`anthropicMessageDeltaData`). -/
structure AnthropicMessageDeltaData where
  stopReason : String
  stopSequence : Option String
deriving Repr, DecidableEq

/-- One parsed Anthropic SSE event: the event name together with its decoded
data payload, as consumed by the `switch eventType` of `anthropicRecvFunc`.
SSE framing and JSON decoding happen before this point and are the boundary
of the model. -/
inductive AnthropicEvent where
  | messageStart (message : AnthropicResponse) : AnthropicEvent
  | contentBlockStart (index : Int) (contentBlock : AnthropicContentBlock) : AnthropicEvent
  | contentBlockDelta (index : Int) (delta : AnthropicDelta) : AnthropicEvent
  | messageDelta (delta : AnthropicMessageDeltaData) : AnthropicEvent
  | messageStop : AnthropicEvent
  | errorEvent (errType errMessage : String) : AnthropicEvent
  | ping : AnthropicEvent
  | contentBlockStop : AnthropicEvent
deriving Repr, DecidableEq

/-- The cross-event state of `anthropicRecvFunc`: the captured message id and
model (both initially empty). -/
structure AnthropicDecodeState where
  msgID : String
  model : String
deriving Repr, DecidableEq

/-- Outcome of handling one event inside `anthropicRecvFunc`'s loop. -/
inductive AnthropicStepOut where
  | skip (st : AnthropicDecodeState) : AnthropicStepOut
  | emit (st : AnthropicDecodeState) (c : StreamChunk) : AnthropicStepOut
  | eofOut : AnthropicStepOut
  | apiErrOut (errType errMessage : String) : AnthropicStepOut
deriving Repr, DecidableEq

/-- The zero-valued canonical message (`Message{}` in Go). -/
def emptyMessage : Message :=
  { role := "", content := { text := "", parts := none }, toolCallID := "", toolCalls := [] }

/-- The `switch eventType` body of `anthropicRecvFunc`, one event at a time. -/
def anthropicHandleEvent (st : AnthropicDecodeState) :
    AnthropicEvent → AnthropicStepOut
  | .messageStart m => .skip { msgID := m.id, model := m.model }
  | .contentBlockStart idx cb =>
      if cb.type = "tool_use" then
        .emit st
          { id := st.msgID, object := "", created := 0, model := st.model
            choices := [{ index := 0
                          delta := { role := "assistant"
                                     content := { text := "", parts := none }
                                     toolCallID := ""
                                     toolCalls := [{ index := idx, id := cb.id
                                                     type := "function"
                                                     function := { name := cb.name
                                                                   arguments := "" } }] }
                          finishReason := none }] }
      else .skip st
  | .contentBlockDelta idx d =>
      if d.type = "text_delta" then
        .emit st
          { id := st.msgID, object := "", created := 0, model := st.model
            choices := [{ index := 0
                          delta := { emptyMessage with content := NewTextContent d.text }
                          finishReason := none }] }
      else if d.type = "input_json_delta" then
        .emit st
          { id := st.msgID, object := "", created := 0, model := st.model
            choices := [{ index := 0
                          delta := { emptyMessage with
                                      toolCalls := [{ index := idx, id := "", type := ""
                                                      function := { name := ""
                                                                    arguments := d.partialJSON } }] }
                          finishReason := none }] }
      else .skip st
  | .messageDelta md =>
      .emit st
        { id := st.msgID, object := "", created := 0, model := st.model
          choices := [{ index := 0, delta := emptyMessage
                        finishReason := some (mapAnthropicStopReason md.stopReason) }] }
  | .messageStop => .eofOut
  | .errorEvent t m => .apiErrOut t m
  | .ping => .skip st
  | .contentBlockStop => .skip st

/-- How an Anthropic stream ended: `message_stop` or scanner exhaustion both
surface as `io.EOF`, an `error` event as an `APIError`. -/
inductive StreamEnd where
  | eofEnd : StreamEnd
  | apiErrEnd (errType errMessage : String) : StreamEnd
deriving Repr, DecidableEq

/-- Repeatedly calling `Recv` of the Anthropic stream over a list of parsed
events: all emitted chunks in order, together with the terminal outcome. -/
def anthropicDecodeAll (st : AnthropicDecodeState) :
    List AnthropicEvent → List StreamChunk × StreamEnd
  | [] => ([], .eofEnd)
  | e :: rest =>
      match anthropicHandleEvent st e with
      | .skip st' => anthropicDecodeAll st' rest
      | .emit st' c =>
          let r := anthropicDecodeAll st' rest
          (c :: r.1, r.2)
      | .eofOut => ([], .eofEnd)
      | .apiErrOut t m => ([], .apiErrEnd t m)

/-- The delta event the wire carries for one response content block: a
`text_delta` with the block's text for a text block, an `input_json_delta`
with the block's raw input JSON for a tool-use block. -/
def deltaForBlock (b : AnthropicContentBlock) : AnthropicDelta :=
  if b.type = "tool_use" then { type := "input_json_delta", text := "", partialJSON := b.input }
  else { type := "text_delta", text := b.text, partialJSON := "" }

/-- The `content_block_start` / `content_block_delta` event pairs for the
blocks of a response, numbered from block index `n`. -/
def blockEvents (n : Nat) : List AnthropicContentBlock → List AnthropicEvent
  | [] => []
  | b :: rest =>
      .contentBlockStart (n : Int) b :: .contentBlockDelta (n : Int) (deltaForBlock b)
        :: blockEvents (n + 1) rest

/-- The event stream corresponding to a non-streaming response, as described
by the streaming contract: `message_start`, then a `content_block_start` and
`content_block_delta` per block in block order, then `message_delta` with the
same stop reason, then `message_stop`. -/
def eventsForResponse (ar : AnthropicResponse) : List AnthropicEvent :=
  .messageStart ar ::
    (blockEvents 0 ar.content ++
      [.messageDelta { stopReason := ar.stopReason, stopSequence := none }, .messageStop])

/-- The per-choice delta messages carried by a list of stream chunks, in
order. -/
def chunkDeltas (cs : List StreamChunk) : List Message :=
  cs.foldr (fun c acc => c.choices.map StreamChunkChoice.delta ++ acc) []

/-- Folding a list of delta messages into an accumulating message with
`Message.AppendDelta` (`none` models a panic of any merge step). -/
def mergeDeltas (m : Message) (ds : List Message) : Option Message :=
  ds.foldlM Message.AppendDelta m

/-- `strings.HasPrefix` of the Go standard library. -/
def strStarts (s p : String) : Bool :=
  p.data.isPrefixOf s.data

/-- `s[n:]` / the suffix kept by `strings.TrimPrefix` once the prefix length
is known. -/
def strDropN (s : String) (n : Nat) : String :=
  ⟨s.data.drop n⟩

/-- The combined unmarshal target of the OpenAI stream decoder
(`streamChunkOrError`): a `StreamChunk` with an optional embedded error. -/
structure StreamChunkOrError where
  chunk : StreamChunk
  error : Option ErrorObj
deriving Repr, DecidableEq

/-- What one `Recv` call of the OpenAI stream returns.  `apiError` carries the
fields of the constructed `APIError` (status code 0, no wrapped cause);
`decodeError` is the wrapped JSON parse failure; `streamClosed` is the
`ErrStreamClosed` sentinel. -/
inductive RecvResult where
  | chunk (c : StreamChunk) : RecvResult
  | eofResult : RecvResult
  | apiError (statusCode : Int) (code message errType : String) : RecvResult
  | decodeError : RecvResult
  | streamClosed : RecvResult
deriving Repr, DecidableEq

/-- The scan loop of `openaiRecvFunc` over the remaining SSE lines.  JSON
decoding is the boundary of the model: `parse` stands for
`json.Unmarshal` into `streamChunkOrError`, `none` being a parse failure.
Returns the result of this `Recv` call and the lines left unconsumed. -/
def openaiRecvLoop (parse : String → Option StreamChunkOrError) :
    List String → RecvResult × List String
  | [] => (.eofResult, [])
  | line :: rest =>
      if line = "" then openaiRecvLoop parse rest
      else if strStarts line ":" then openaiRecvLoop parse rest
      else if ¬ strStarts line "data: " then openaiRecvLoop parse rest
      else
        let data := strDropN line 6
        if data = "[DONE]" then (.eofResult, rest)
        else
          match parse data with
          | none => (.decodeError, rest)
          | some p =>
              match p.error with
              | some e => (.apiError 0 e.code e.message e.type, rest)
              | none => (.chunk p.chunk, rest)

/-- The observable state of a `Stream` (`stream.go`): the atomic closed flag
and the unconsumed transport lines. -/
structure StreamState where
  closed : Bool
  lines : List String
deriving Repr, DecidableEq

/-- `Stream.Recv` of `stream.go`: the closed flag short-circuits to
`ErrStreamClosed` before any transport read; otherwise the decoder loop runs
and consumes lines. -/
def streamRecv (parse : String → Option StreamChunkOrError) (s : StreamState) :
    RecvResult × StreamState :=
  if s.closed then (.streamClosed, s)
  else
    let r := openaiRecvLoop parse s.lines
    (r.1, { s with lines := r.2 })

/-- `Stream.Close` of `stream.go`: sets the closed flag (the transport
close itself is external I/O). -/
def streamClose (s : StreamState) : StreamState :=
  { s with closed := true }

/-- The n-th `Recv` call after the given state (calling `Recv` repeatedly,
threading the stream state). -/
def recvSeq (parse : String → Option StreamChunkOrError) (s : StreamState) :
    Nat → RecvResult × StreamState
  | 0 => streamRecv parse s
  | n + 1 => recvSeq parse (streamRecv parse s).2 n

/-- Claim-side helper: the canonical tool calls of a block list — one entry
per `"tool_use"` block in order, indices sequential from `n`, id and name
from the block, arguments the block's raw input JSON. -/
def seqToolCalls (n : Nat) : List AnthropicContentBlock → List ToolCall
  | [] => []
  | b :: rest =>
      if b.type = "tool_use" then
        { index := (n : Int), id := b.id, type := "function"
          function := { name := b.name, arguments := b.input } } :: seqToolCalls (n + 1) rest
      else seqToolCalls n rest

/-- Claim-side helper: the texts of the `"text"`-typed blocks, in order. -/
def blockTexts (bs : List AnthropicContentBlock) : List String :=
  (bs.filter (fun b => b.type = "text")).map AnthropicContentBlock.text

/-- Claim-side helper: concatenation of a list of strings with no separator. -/
def strConcat (l : List String) : String :=
  l.foldl (fun a s => a ++ s) ""

/-- `k` placeholder tool calls with indices `s, s+1, ...` (the closed form of
the growth loop's appended suffix). -/
def padFrom (s : Nat) : Nat → List ToolCall
  | 0 => []
  | k + 1 => placeholderToolCall s :: padFrom (s + 1) k

def systemTexts (msgs : List Message) : List String :=
  (msgs.filter (fun m => m.role = "system")).map (fun m => m.content.Text)

def sysAcc (a : String) : List String → String
  | [] => a
  | t :: rest => sysAcc (if a ≠ "" then a ++ "\n" ++ t else a ++ t) rest

def nlJoinAll (l : List String) : String :=
  strConcat (l.map (fun t => "\n" ++ t))

def toolStartDelta (n : Nat) (b : AnthropicContentBlock) : Message :=
  { role := "assistant", content := { text := "", parts := none }, toolCallID := ""
    toolCalls := [{ index := (n : Int), id := b.id, type := "function"
                    function := { name := b.name, arguments := "" } }] }

def toolArgsDelta (n : Nat) (b : AnthropicContentBlock) : Message :=
  { emptyMessage with
      toolCalls := [{ index := (n : Int), id := "", type := ""
                      function := { name := "", arguments := b.input } }] }

def textDelta (b : AnthropicContentBlock) : Message :=
  { emptyMessage with content := NewTextContent b.text }

def blockDeltas (n : Nat) : List AnthropicContentBlock → List Message
  | [] => []
  | b :: rest =>
      if b.type = "tool_use" then
        toolStartDelta n b :: toolArgsDelta n b :: blockDeltas (n + 1) rest
      else
        textDelta b :: blockDeltas (n + 1) rest

theorem anthropicDecodeAll_skip (st st' : AnthropicDecodeState) (e : AnthropicEvent)
    (es : List AnthropicEvent) (h : anthropicHandleEvent st e = .skip st') :
    anthropicDecodeAll st (e :: es) = anthropicDecodeAll st' es := by
  rw [anthropicDecodeAll.eq_def]
  simp only [h]

theorem anthropicDecodeAll_emit (st st' : AnthropicDecodeState) (c : StreamChunk)
    (e : AnthropicEvent) (es : List AnthropicEvent)
    (h : anthropicHandleEvent st e = .emit st' c) :
    anthropicDecodeAll st (e :: es) =
      (c :: (anthropicDecodeAll st' es).1, (anthropicDecodeAll st' es).2) := by
  rw [anthropicDecodeAll.eq_def]
  simp only [h]



theorem padFrom_length (s k : Nat) : (padFrom s k).length = k := by
  induction k generalizing s with
  | zero => rfl
  | succ k ih => simp [padFrom, ih]

theorem padFrom_getElem? (s k i : Nat) :
    (padFrom s k)[i]? = if i < k then some (placeholderToolCall (s + i)) else none := by
  induction k generalizing s i with
  | zero => simp [padFrom]
  | succ k ih =>
      cases i with
      | zero => simp [padFrom]
      | succ i =>
          simp [padFrom, ih (s + 1) i]
          have hsi : s + 1 + i = s + (i + 1) := by omega
          rw [hsi]

theorem growToolCalls_closed_aux (n : Nat) (l : List ToolCall) (idx : Int)
    (hn : (idx + 1 - l.length).toNat ≤ n) :
    growToolCalls l idx = l ++ padFrom l.length ((idx + 1 - l.length).toNat) := by
  induction n generalizing l with
  | zero =>
      have h : ¬ ((l.length : Int) ≤ idx) := by omega
      have h0 : (idx + 1 - l.length).toNat = 0 := by omega
      rw [growToolCalls, dif_neg h, h0]
      simp [padFrom]
  | succ n ih =>
      by_cases h : (l.length : Int) ≤ idx
      · rw [growToolCalls, dif_pos h]
        rw [ih (l ++ [placeholderToolCall l.length]) (by simp; omega)]
        obtain ⟨k, hk⟩ : ∃ k, (idx + 1 - l.length).toNat = k + 1 :=
          ⟨(idx - l.length).toNat, by omega⟩
        have hk' : (idx + 1 - ((l ++ [placeholderToolCall l.length]).length : Int)).toNat = k := by
          simp; omega
        rw [hk, hk']
        simp [padFrom]
      · have h0 : (idx + 1 - l.length).toNat = 0 := by omega
        rw [growToolCalls, dif_neg h, h0]
        simp [padFrom]

theorem growToolCalls_closed (l : List ToolCall) (idx : Int) :
    growToolCalls l idx = l ++ padFrom l.length ((idx + 1 - l.length).toNat) :=
  growToolCalls_closed_aux ((idx + 1 - l.length).toNat) l idx le_rfl


theorem growToolCalls_length (l : List ToolCall) (i : Nat) :
    (growToolCalls l (i : Int)).length = max l.length (i + 1) := by
  rw [growToolCalls_closed]
  simp [padFrom_length]
  omega

theorem mergeToolCallAt_spec (l : List ToolCall) (dtc : ToolCall) (i : Nat)
    (hi : dtc.index = (i : Int)) :
    ∃ r, mergeToolCallAt l dtc = some r ∧
      r.length = max l.length (i + 1) ∧
      (∀ j, j ≠ i →
        r[j]? = if j < l.length then l[j]?
                else if j < r.length then some (placeholderToolCall j) else none) ∧
      r[i]? = some ((l.getD i (placeholderToolCall i)).Merge dtc) := by
  obtain ⟨idx, tid, tty, tf⟩ := dtc
  simp only at hi
  subst hi
  have hG : growToolCalls l ((i : Nat) : Int) = l ++ padFrom l.length (((i : Int) + 1 - l.length).toNat) :=
    growToolCalls_closed l (i : Int)
  set pad := (((i : Int) + 1 - l.length).toNat) with hpad
  have hlenpad : l.length + pad = max l.length (i + 1) := by omega
  have hGlen : (growToolCalls l ((i : Nat) : Int)).length = max l.length (i + 1) := by
    rw [hG]; simp [padFrom_length]; omega
  have hib : i < (growToolCalls l ((i : Nat) : Int)).length := by
    rw [hGlen]; omega
  have hcond : 0 ≤ ((i : Nat) : Int) ∧
      ((i : Nat) : Int).toNat < (growToolCalls l ((i : Nat) : Int)).length :=
    ⟨Int.ofNat_nonneg i, hib⟩
  have hGi : (growToolCalls l ((i : Nat) : Int))[i]? = some (l.getD i (placeholderToolCall i)) := by
    rw [hG, List.getElem?_append]
    by_cases hil : i < l.length
    · rw [if_pos hil, List.getD_eq_getElem?_getD, List.getElem?_eq_getElem hil]
      rfl
    · rw [if_neg hil, padFrom_getElem?]
      have hlt : i - l.length < pad := by omega
      rw [if_pos hlt]
      have h2 : l.length + (i - l.length) = i := by omega
      rw [h2, List.getD_eq_getElem?_getD, List.getElem?_eq_none (by omega)]
      rfl
  have hget : (growToolCalls l ((i : Nat) : Int)).get ⟨i, hib⟩ = l.getD i (placeholderToolCall i) := by
    have h1 := hGi
    rw [List.getElem?_eq_getElem hib] at h1
    simpa using h1
  refine ⟨(growToolCalls l ((i : Nat) : Int)).set i
      (((growToolCalls l ((i : Nat) : Int)).get ⟨i, hib⟩).Merge ⟨((i : Nat) : Int), tid, tty, tf⟩),
      ?_, ?_, ?_, ?_⟩
  · rw [mergeToolCallAt]
    rw [dif_pos hcond]
    rfl
  · simp [hGlen]
  · intro j hj
    rw [List.getElem?_set_ne (fun h => hj h.symm)]
    rw [List.length_set, hGlen]
    rw [hG, List.getElem?_append]
    by_cases hjl : j < l.length
    · rw [if_pos hjl, if_pos hjl]
    · rw [if_neg hjl, if_neg hjl, padFrom_getElem?]
      by_cases hjp : j - l.length < pad
      · rw [if_pos hjp]
        have h2 : l.length + (j - l.length) = j := by omega
        rw [h2, if_pos (by omega)]
      · rw [if_neg hjp, if_neg (by omega)]
  · rw [hget]
    simp [List.getElem?_set_self, hib]


theorem foldlM_merge_nonneg (tcs : List ToolCall) (l : List ToolCall)
    (h : ∀ tc ∈ tcs, 0 ≤ tc.index) :
    ∃ r, tcs.foldlM mergeToolCallAt l = some r := by
  induction tcs generalizing l with
  | nil => exact ⟨l, rfl⟩
  | cons tc rest ih =>
      have h0 : 0 ≤ tc.index := h tc (List.mem_cons_self tc rest)
      obtain ⟨i, hi⟩ : ∃ i : Nat, tc.index = (i : Int) :=
        ⟨tc.index.toNat, (Int.toNat_of_nonneg h0).symm⟩
      obtain ⟨r₁, hr₁, -⟩ := mergeToolCallAt_spec l tc i hi
      obtain ⟨r, hr⟩ := ih r₁ (fun x hx => h x (List.mem_cons_of_mem tc hx))
      refine ⟨r, ?_⟩
      rw [List.foldlM_cons, hr₁]
      simpa using hr

theorem AppendDelta_some_content (m d r : Message) (h : m.AppendDelta d = some r) :
    r.content = { text := m.content.text ++ d.content.text, parts := m.content.parts } ∧
    r.role = m.role ∧ r.toolCallID = m.toolCallID := by
  rw [Message.AppendDelta] at h
  cases hf : d.toolCalls.foldlM mergeToolCallAt m.toolCalls with
  | none => rw [hf] at h; exact absurd h (by simp)
  | some tcs =>
      rw [hf] at h
      simp only [Option.some.injEq] at h
      subst h
      exact ⟨rfl, rfl, rfl⟩

theorem AppendDelta_some_toolCalls (m d r : Message) (h : m.AppendDelta d = some r) :
    d.toolCalls.foldlM mergeToolCallAt m.toolCalls = some r.toolCalls := by
  rw [Message.AppendDelta] at h
  cases hf : d.toolCalls.foldlM mergeToolCallAt m.toolCalls with
  | none => rw [hf] at h; exact absurd h (by simp)
  | some tcs =>
      rw [hf] at h
      simp only [Option.some.injEq] at h
      subst h
      rfl

theorem AppendDelta_nonneg_isSome (m d : Message)
    (h : ∀ tc ∈ d.toolCalls, 0 ≤ tc.index) :
    ∃ r, m.AppendDelta d = some r := by
  obtain ⟨tcs, htcs⟩ := foldlM_merge_nonneg d.toolCalls m.toolCalls h
  exact ⟨{ m with
            content := { text := m.content.text ++ d.content.text, parts := m.content.parts }
            toolCalls := tcs }, by rw [Message.AppendDelta, htcs]⟩

theorem mergeToolCallAt_neg (l : List ToolCall) (dtc : ToolCall) (h : dtc.index < 0) :
    mergeToolCallAt l dtc = none := by
  rw [mergeToolCallAt]
  rw [dif_neg]
  intro hc
  omega

theorem AppendDelta_neg_head (m : Message) (d : Message) (tc : ToolCall) (rest : List ToolCall)
    (hd : d.toolCalls = tc :: rest) (h : tc.index < 0) :
    m.AppendDelta d = none := by
  rw [Message.AppendDelta, hd, List.foldlM_cons, mergeToolCallAt_neg m.toolCalls tc h]
  rfl

theorem AppendDelta_singleton (m d : Message) (tc : ToolCall) (i : Nat)
    (hd : d.toolCalls = [tc]) (hi : tc.index = (i : Int)) :
    ∃ r, m.AppendDelta d = some r ∧
      r.content = { text := m.content.text ++ d.content.text, parts := m.content.parts } ∧
      r.toolCalls.length = max m.toolCalls.length (i + 1) ∧
      (∀ j, j ≠ i →
        r.toolCalls[j]? = if j < m.toolCalls.length then m.toolCalls[j]?
                else if j < r.toolCalls.length then some (placeholderToolCall j) else none) ∧
      r.toolCalls[i]? = some ((m.toolCalls.getD i (placeholderToolCall i)).Merge tc) := by
  obtain ⟨tcs, h1, h2, h3, h4⟩ := mergeToolCallAt_spec m.toolCalls tc i hi
  refine ⟨{ m with
            content := { text := m.content.text ++ d.content.text, parts := m.content.parts }
            toolCalls := tcs }, ?_, rfl, h2, h3, h4⟩
  rw [Message.AppendDelta, hd, List.foldlM_cons, h1]
  rfl


theorem strConcat_acc (l : List String) (a : String) :
    l.foldl (fun x s => x ++ s) a = a ++ strConcat l := by
  induction l generalizing a with
  | nil => simp [strConcat]
  | cons s rest ih =>
      have h1 : strConcat (s :: rest) = ("" ++ s) ++ strConcat rest := by
        rw [strConcat, List.foldl_cons, ih]
      rw [List.foldl_cons, ih, h1]
      simp [String.append_assoc]

theorem strConcat_cons (s : String) (l : List String) : strConcat (s :: l) = s ++ strConcat l := by
  rw [strConcat, List.foldl_cons, strConcat_acc]
  simp

theorem contentTextBuilder (ps : List ContentPart) (acc : String) :
    ps.foldl (fun b p => if p.type = "text" then b ++ p.text else b) acc =
      acc ++ strConcat ((ps.filter (fun p => p.type = "text")).map ContentPart.text) := by
  induction ps generalizing acc with
  | nil => simp [strConcat]
  | cons p rest ih =>
      by_cases h : p.type = "text"
      · simp only [List.foldl_cons, if_pos h, ih, List.filter_cons, h]
        simp [strConcat_cons, String.append_assoc]
      · simp only [List.foldl_cons, if_neg h, ih, List.filter_cons, h]
        simp

/-- C6: `Text()` on the plain-string variant returns exactly that string; on
the parts variant it returns the separator-free concatenation, in part order,
of the `text` fields of exactly the `"text"`-typed parts. -/
theorem C6_content_text :
    (∀ s : String, (NewTextContent s).Text = s) ∧
    (∀ ps : List ContentPart, (NewPartsContent ps).Text =
        strConcat ((ps.filter (fun p => p.type = "text")).map ContentPart.text)) := by
  constructor
  · intro s
    rfl
  · intro ps
    show ps.foldl (fun b p => if p.type = "text" then b ++ p.text else b) "" = _
    rw [contentTextBuilder]
    simp

/-- C1: `AppendDelta` appends the delta's text to the accumulated text; each
delta tool call at index `i` first grows the tool-call list with placeholder
entries (index = position) until its length reaches `i + 1`, then field-merges
the entry at `i` (non-empty incoming id/type/name overwrite, arguments are
always appended); a delta at index 2 into a message with no tool calls yields
a 3-element list with placeholders at 0 and 1. -/
theorem C1_appendDelta_merge :
    (∀ m d r : Message, m.AppendDelta d = some r →
        r.content.text = m.content.text ++ d.content.text) ∧
    (∀ tc dtc : ToolCall,
        (tc.Merge dtc).function.arguments = tc.function.arguments ++ dtc.function.arguments ∧
        (dtc.id ≠ "" → (tc.Merge dtc).id = dtc.id) ∧
        (dtc.id = "" → (tc.Merge dtc).id = tc.id) ∧
        (dtc.type ≠ "" → (tc.Merge dtc).type = dtc.type) ∧
        (dtc.type = "" → (tc.Merge dtc).type = tc.type) ∧
        (dtc.function.name ≠ "" → (tc.Merge dtc).function.name = dtc.function.name) ∧
        (dtc.function.name = "" → (tc.Merge dtc).function.name = tc.function.name)) ∧
    (∀ (m d : Message) (tc : ToolCall) (i : Nat), d.toolCalls = [tc] → tc.index = (i : Int) →
        ∃ r, m.AppendDelta d = some r ∧
          r.toolCalls.length = max m.toolCalls.length (i + 1) ∧
          (∀ j, j ≠ i → r.toolCalls[j]? =
              if j < m.toolCalls.length then m.toolCalls[j]?
              else if j < r.toolCalls.length then some (placeholderToolCall j) else none) ∧
          r.toolCalls[i]? = some ((m.toolCalls.getD i (placeholderToolCall i)).Merge tc)) ∧
    (∀ (m d : Message) (tc : ToolCall), m.toolCalls = [] → d.toolCalls = [tc] →
        tc.index = (2 : Int) →
        ∃ r, m.AppendDelta d = some r ∧
          r.toolCalls = [placeholderToolCall 0, placeholderToolCall 1,
                         (placeholderToolCall 2).Merge tc]) := by
  refine ⟨?_, ?_, ?_, ?_⟩
  · intro m d r h
    rw [(AppendDelta_some_content m d r h).1]
  · intro tc dtc
    refine ⟨rfl, ?_, ?_, ?_, ?_, ?_, ?_⟩ <;> intro h <;> simp [ToolCall.Merge, h]
  · intro m d tc i hd hi
    obtain ⟨r, h1, h2, h3, h4, h5⟩ := AppendDelta_singleton m d tc i hd hi
    exact ⟨r, h1, h3, h4, h5⟩
  · intro m d tc hm hd hi
    obtain ⟨r, h1, hc, h2, h3, h4⟩ := AppendDelta_singleton m d tc 2 hd hi
    refine ⟨r, h1, ?_⟩
    rw [hm] at h2 h3 h4
    simp only [List.length_nil] at h2 h3 h4
    apply List.ext_getElem?
    intro j
    match j with
    | 0 => rw [h3 0 (by omega)]; simp [h2]
    | 1 => rw [h3 1 (by omega)]; simp [h2]
    | 2 => rw [h4]; simp [List.getD]
    | (n + 3) => rw [h3 (n + 3) (by omega)]; simp [h2]

/-- C1 witness: the placeholder-growth example at concrete inputs. -/
theorem C1_appendDelta_merge_witness :
    ∃ r, Message.AppendDelta emptyMessage
        { emptyMessage with toolCalls := [⟨2, "a", "function", ⟨"f", "x"⟩⟩] } = some r ∧
      r.toolCalls = [placeholderToolCall 0, placeholderToolCall 1,
                     (placeholderToolCall 2).Merge ⟨2, "a", "function", ⟨"f", "x"⟩⟩] :=
  C1_appendDelta_merge.2.2.2 emptyMessage
    { emptyMessage with toolCalls := [⟨2, "a", "function", ⟨"f", "x"⟩⟩] }
    ⟨2, "a", "function", ⟨"f", "x"⟩⟩ rfl rfl rfl

/-- C9: when every delta tool call carries a non-negative index the merge loop
accesses only in-bounds entries (no panic); a negative wire index (e.g. -1)
makes the slice access out of range (`none` models the Go panic). -/
theorem C9_appendDelta_index_bounds :
    (∀ m d : Message, (∀ tc ∈ d.toolCalls, 0 ≤ tc.index) → ∃ r, m.AppendDelta d = some r) ∧
    Message.AppendDelta emptyMessage
      { emptyMessage with toolCalls := [⟨-1, "x", "function", ⟨"f", "\x7b\x7d"⟩⟩] } = none := by
  constructor
  · exact AppendDelta_nonneg_isSome
  · exact AppendDelta_neg_head _ _ _ [] rfl (by norm_num)

/-- C9 witness: the in-bounds half applied at a concrete delta. -/
theorem C9_appendDelta_index_bounds_witness :
    ∃ r, Message.AppendDelta emptyMessage
        { emptyMessage with toolCalls := [⟨0, "x", "function", ⟨"f", "\x7b\x7d"⟩⟩] } = some r :=
  C9_appendDelta_index_bounds.1 emptyMessage
    { emptyMessage with toolCalls := [⟨0, "x", "function", ⟨"f", "\x7b\x7d"⟩⟩] }
    (by intro tc htc; simp at htc; subst htc; norm_num)


/-- C10: `AppendDelta` reads and writes only the hidden plain-text field of
`Content`: it never touches `parts`, appended text is invisible to `Text()`
while `parts` is non-nil, a parts-variant delta contributes nothing, and the
exactly-one-variant-populated invariant is not preserved. -/
theorem C10_appendDelta_content_invariant :
    (∀ m d r : Message, m.AppendDelta d = some r →
        r.content = { text := m.content.text ++ d.content.text, parts := m.content.parts }) ∧
    (∀ m d r : Message, m.AppendDelta d = some r → m.content.parts ≠ none →
        r.content.Text = m.content.Text) ∧
    (∀ (m d r : Message) (ps : List ContentPart), m.AppendDelta d = some r →
        d.content = NewPartsContent ps → r.content = m.content) ∧
    (∃ r, Message.AppendDelta
        { emptyMessage with content := NewPartsContent [⟨"text", "P", none⟩] }
        { emptyMessage with content := NewTextContent "hi" } = some r ∧
      r.content.text = "hi" ∧ r.content.parts = some [⟨"text", "P", none⟩] ∧
      r.content.Text = "P") := by
  refine ⟨?_, ?_, ?_, ?_⟩
  · intro m d r h
    exact (AppendDelta_some_content m d r h).1
  · intro m d r h hp
    rw [(AppendDelta_some_content m d r h).1]
    cases hps : m.content.parts with
    | none => exact absurd hps hp
    | some ps =>
        rw [Content.Text, Content.Text]
        simp only [hps]
  · intro m d r ps h hd
    rw [(AppendDelta_some_content m d r h).1, hd]
    simp [NewPartsContent]
  · refine ⟨{ emptyMessage with
        content := { text := "hi", parts := some [⟨"text", "P", none⟩] } }, ?_, rfl, rfl, rfl⟩
    rw [Message.AppendDelta]
    rfl

/-- C10 witness: the general conjuncts applied at the concrete invariant
violation. -/
theorem C10_appendDelta_content_invariant_witness :
    ∃ r, Message.AppendDelta
        { emptyMessage with content := NewPartsContent [⟨"text", "P", none⟩] }
        { emptyMessage with content := NewTextContent "hi" } = some r ∧
      r.content.Text =
        ({ emptyMessage with
            content := NewPartsContent [⟨"text", "P", none⟩] } : Message).content.Text := by
  obtain ⟨r, h1, -, -, -⟩ := C10_appendDelta_content_invariant.2.2.2
  exact ⟨r, h1, C10_appendDelta_content_invariant.2.1 _ _ r h1 (by simp [NewPartsContent])⟩


theorem seqToolCalls_map_fields (n : Nat) (bs : List AnthropicContentBlock) :
    (seqToolCalls n bs).map (fun tc => (tc.id, tc.type, tc.function.name, tc.function.arguments))
      = (bs.filter (fun b => b.type = "tool_use")).map
          (fun b => (b.id, "function", b.name, b.input)) := by
  induction bs generalizing n with
  | nil => rfl
  | cons b rest ih =>
      by_cases h : b.type = "tool_use"
      · simp [seqToolCalls, h, List.filter_cons, ih]
      · simp [seqToolCalls, h, List.filter_cons, ih]

theorem seqToolCalls_map_index (n : Nat) (bs : List AnthropicContentBlock) :
    (seqToolCalls n bs).map ToolCall.index
      = (List.range' n (seqToolCalls n bs).length).map (fun j => (j : Int)) := by
  induction bs generalizing n with
  | nil => rfl
  | cons b rest ih =>
      by_cases h : b.type = "tool_use"
      · simp [seqToolCalls, h, List.range'_succ, ih]
      · simp [seqToolCalls, h, ih]

theorem anthropicBlocksFold (bs : List AnthropicContentBlock) (tp : List String)
    (tcacc : List ToolCall) :
    bs.foldl anthropicBlockStep (tp, tcacc) =
      (tp ++ blockTexts bs, tcacc ++ seqToolCalls tcacc.length bs) := by
  induction bs generalizing tp tcacc with
  | nil => simp [blockTexts, seqToolCalls]
  | cons b rest ih =>
      rw [List.foldl_cons]
      by_cases ht : b.type = "text"
      · have htu : ¬ b.type = "tool_use" := by rw [ht]; decide
        rw [anthropicBlockStep, if_pos ht]
        rw [ih]
        simp [blockTexts, seqToolCalls, List.filter_cons, ht, htu]
      · by_cases htu : b.type = "tool_use"
        · rw [anthropicBlockStep, if_neg ht, if_pos htu]
          rw [ih]
          simp [blockTexts, seqToolCalls, List.filter_cons, ht, htu]
        · rw [anthropicBlockStep, if_neg ht, if_neg htu]
          rw [ih]
          simp [blockTexts, seqToolCalls, List.filter_cons, ht, htu]


/-- C3: `fromAnthropicResponse` yields exactly one assistant choice whose text
is the `"\n"`-join of the text blocks, whose tool calls are the `tool_use`
blocks in order with sequential indices and verbatim raw-JSON arguments,
whose finish reason is the mapped vendor stop reason (`end_turn` and
`stop_sequence` to `stop`, `max_tokens` to `length`, `tool_use` to
`tool_calls`, anything else passed through), and whose usage totals add up. -/
theorem C3_fromAnthropicResponse_shape :
    (∀ ar : AnthropicResponse,
      ∃ c, (fromAnthropicResponse ar).choices = [c] ∧
        c.message.role = "assistant" ∧
        c.message.content.Text = joinNL (blockTexts ar.content) ∧
        c.message.toolCalls.map
            (fun tc => (tc.id, tc.type, tc.function.name, tc.function.arguments))
          = (ar.content.filter (fun b => b.type = "tool_use")).map
              (fun b => (b.id, "function", b.name, b.input)) ∧
        c.message.toolCalls.map ToolCall.index
          = (List.range c.message.toolCalls.length).map (fun j => (j : Int)) ∧
        c.finishReason = mapAnthropicStopReason ar.stopReason ∧
        (fromAnthropicResponse ar).usage.promptTokens = ar.usage.inputTokens ∧
        (fromAnthropicResponse ar).usage.completionTokens = ar.usage.outputTokens ∧
        (fromAnthropicResponse ar).usage.totalTokens =
          ar.usage.inputTokens + ar.usage.outputTokens ∧
        (fromAnthropicResponse ar).usage.totalTokens =
          (fromAnthropicResponse ar).usage.promptTokens +
            (fromAnthropicResponse ar).usage.completionTokens) ∧
    mapAnthropicStopReason "end_turn" = "stop" ∧
    mapAnthropicStopReason "stop_sequence" = "stop" ∧
    mapAnthropicStopReason "max_tokens" = "length" ∧
    mapAnthropicStopReason "tool_use" = "tool_calls" ∧
    (∀ s : String, s ≠ "end_turn" → s ≠ "stop_sequence" → s ≠ "max_tokens" → s ≠ "tool_use" →
        mapAnthropicStopReason s = s) := by
  refine ⟨?_, rfl, rfl, rfl, rfl, ?_⟩
  · intro ar
    have hfold := anthropicBlocksFold ar.content [] []
    refine ⟨_, rfl, rfl, ?_, ?_, ?_, rfl, rfl, rfl, rfl, rfl⟩
    · show (if (ar.content.foldl anthropicBlockStep ([], [])).1.length > 0 then
          NewTextContent (joinNL (ar.content.foldl anthropicBlockStep ([], [])).1)
        else { text := "", parts := none } : Content).Text = _
      rw [hfold]
      simp only [List.nil_append]
      by_cases h : (blockTexts ar.content).length > 0
      · rw [if_pos h]
        rfl
      · rw [if_neg h]
        have : blockTexts ar.content = [] := List.eq_nil_of_length_eq_zero (by omega)
        rw [this]
        rfl
    · show ((ar.content.foldl anthropicBlockStep ([], [])).2).map _ = _
      rw [hfold]
      simpa using seqToolCalls_map_fields 0 ar.content
    · show ((ar.content.foldl anthropicBlockStep ([], [])).2).map ToolCall.index = _
      rw [hfold]
      simp only [List.nil_append, List.length_nil]
      rw [seqToolCalls_map_index 0 ar.content, List.range_eq_range']
  · intro s h1 h2 h3 h4
    rw [mapAnthropicStopReason]
    rw [if_neg (by tauto), if_neg h3, if_neg h4]

/-- C3 witness: the shape theorem and the pass-through mapping applied at a
concrete response and a concrete unknown stop reason. -/
theorem C3_fromAnthropicResponse_shape_witness :
    mapAnthropicStopReason "pause_turn" = "pause_turn" ∧
    ∃ c, (fromAnthropicResponse
        ⟨"id0", "message", "assistant", "m0",
          [⟨"text", "Hello!", "", "", "", "", ""⟩], "end_turn", none, ⟨10, 5⟩⟩).choices = [c] ∧
      c.message.content.Text = "Hello!" ∧ c.finishReason = "stop" := by
  constructor
  · exact C3_fromAnthropicResponse_shape.2.2.2.2.2 "pause_turn"
      (by decide) (by decide) (by decide) (by decide)
  · obtain ⟨c, hc, -, htext, -, -, hfin, -⟩ := C3_fromAnthropicResponse_shape.1
      ⟨"id0", "message", "assistant", "m0",
        [⟨"text", "Hello!", "", "", "", "", ""⟩], "end_turn", none, ⟨10, 5⟩⟩
    exact ⟨c, hc, by rw [htext]; rfl, by rw [hfin]; decide⟩


theorem strAppend_ne_empty (a b : String) (h : a ≠ "") : a ++ b ≠ "" := by
  intro hc
  apply h
  have hlen := congrArg String.length hc
  rw [String.length_append] at hlen
  have hz : String.length "" = 0 := rfl
  have : a.length = 0 := by omega
  cases a with
  | mk data =>
      cases data with
      | nil => rfl
      | cons c cs => simp [String.length] at this

theorem joinNL_cons (t : String) (l : List String) : joinNL (t :: l) = t ++ nlJoinAll l := by
  induction l generalizing t with
  | nil => simp [joinNL, nlJoinAll, strConcat]
  | cons r rs ih =>
      rw [joinNL, ih r]
      have hn : nlJoinAll (r :: rs) = ("\n" ++ r) ++ nlJoinAll rs := by
        rw [nlJoinAll, List.map_cons, strConcat_cons, nlJoinAll]
      rw [hn]
      simp [String.append_assoc]

theorem sysAcc_nonempty (l : List String) (a : String) (h : a ≠ "") :
    sysAcc a l = a ++ nlJoinAll l := by
  induction l generalizing a with
  | nil => simp [sysAcc, nlJoinAll, strConcat]
  | cons t rest ih =>
      rw [sysAcc, if_pos h]
      rw [ih _ (strAppend_ne_empty _ _ (strAppend_ne_empty a "\n" h))]
      have hn : nlJoinAll (t :: rest) = ("\n" ++ t) ++ nlJoinAll rest := by
        rw [nlJoinAll, List.map_cons, strConcat_cons, nlJoinAll]
      rw [hn]
      simp [String.append_assoc]

theorem sysAcc_empty (l : List String) :
    sysAcc "" l = joinNL (l.dropWhile (fun t => t = "")) := by
  induction l with
  | nil => simp [sysAcc, joinNL]
  | cons t rest ih =>
      by_cases h : t = ""
      · subst h
        rw [sysAcc, if_neg (by simp)]
        have he : ("" : String) ++ "" = "" := by simp
        rw [he, ih]
        rw [List.dropWhile_cons]
        simp
      · rw [sysAcc, if_neg (by simp)]
        have he : ("" : String) ++ t = t := by simp
        rw [he, sysAcc_nonempty rest t h]
        rw [List.dropWhile_cons]
        simp only [decide_eq_true_eq, h, if_false]
        rw [joinNL_cons]

theorem anthropicMessagesFold_system (msgs : List Message) (a : String)
    (acc2 : List AnthropicMessage) :
    (msgs.foldl anthropicMessageStep (a, acc2)).1 = sysAcc a (systemTexts msgs) := by
  induction msgs generalizing a acc2 with
  | nil => simp [systemTexts, sysAcc]
  | cons m rest ih =>
      rw [List.foldl_cons]
      by_cases h : m.role = "system"
      · rw [anthropicMessageStep, if_pos h]
        rw [ih]
        simp [systemTexts, List.filter_cons, h, sysAcc]
      · rw [anthropicMessageStep, if_neg h]
        rw [ih]
        simp [systemTexts, List.filter_cons, h]

theorem anthropicMessagesFold_messages (msgs : List Message) (a : String)
    (acc2 : List AnthropicMessage) :
    (msgs.foldl anthropicMessageStep (a, acc2)).2 =
      acc2 ++ (msgs.filter (fun m => ¬ m.role = "system")).map toAnthropicMessage := by
  induction msgs generalizing a acc2 with
  | nil => simp
  | cons m rest ih =>
      rw [List.foldl_cons]
      by_cases h : m.role = "system"
      · rw [anthropicMessageStep, if_pos h]
        rw [ih]
        simp [List.filter_cons, h]
      · rw [anthropicMessageStep, if_neg h]
        rw [ih]
        simp [List.filter_cons, h]

theorem toAnthropicMessage_role (m : Message) (h : m.role ≠ "system") :
    (toAnthropicMessage m).role ≠ "system" := by
  rw [toAnthropicMessage]
  by_cases ht : m.role = "tool"
  · rw [if_pos ht]
    show ("user" : String) ≠ "system"
    decide
  · rw [if_neg ht]
    by_cases ha : m.role = "assistant" ∧ m.toolCalls ≠ []
    · rw [if_pos ha]
      exact h
    · rw [if_neg ha]
      exact h


/-- C4 (amended): the dialect-B translator concatenates the system-message
texts with a `"\n"` separator, except that separators are suppressed while
the accumulated string is still empty (leading empty-text system messages
contribute nothing); the translated message list contains no system-role
messages; two non-empty system messages join as claimed. -/
theorem C4_system_extraction :
    (∀ req : ChatRequest,
        (toAnthropicRequest req).system =
          joinNL ((systemTexts req.messages).dropWhile (fun t => t = "")) ∧
        ∀ am ∈ (toAnthropicRequest req).messages, am.role ≠ "system") ∧
    (∀ req : ChatRequest, systemTexts req.messages = ["You are helpful.", "Be concise."] →
        (toAnthropicRequest req).system = "You are helpful.\nBe concise.") := by
  have hsys : ∀ req : ChatRequest,
      (toAnthropicRequest req).system = sysAcc "" (systemTexts req.messages) := by
    intro req
    show (req.messages.foldl anthropicMessageStep ("", [])).1 = _
    exact anthropicMessagesFold_system req.messages "" []
  constructor
  · intro req
    constructor
    · rw [hsys req, sysAcc_empty]
    · intro am ham
      have hmem : am ∈ (req.messages.foldl anthropicMessageStep ("", [])).2 := ham
      rw [anthropicMessagesFold_messages req.messages "" []] at hmem
      simp only [List.nil_append, List.mem_map, List.mem_filter] at hmem
      obtain ⟨m, ⟨-, hrole⟩, rfl⟩ := hmem
      exact toAnthropicMessage_role m (by simpa using hrole)
  · intro req hreq
    rw [hsys req, hreq]
    decide

/-- C4 counterexample: with system texts `["", "Be concise."]` the code drops
the separator (accumulator still empty), so the system string is
`"Be concise."`, not the plain `"\n"`-join `"\nBe concise."` of the claim. -/
theorem C4_system_extraction_counterexample :
    (toAnthropicRequest
        { model := "m", messages :=
            [{ role := "system", content := NewTextContent "", toolCallID := "", toolCalls := [] },
             { role := "system", content := NewTextContent "Be concise.", toolCallID := ""
               toolCalls := [] }]
          temperature := none, maxTokens := none, topP := none, n := none, stop := []
          seed := none, user := "", stream := false, tools := [], toolChoice := none }).system
      = "Be concise." ∧
    joinNL (systemTexts
        [{ role := "system", content := NewTextContent "", toolCallID := "", toolCalls := [] },
         { role := "system", content := NewTextContent "Be concise.", toolCallID := ""
           toolCalls := [] }]) = "\nBe concise." ∧
    ("Be concise." : String) ≠ "\nBe concise." := by
  refine ⟨rfl, rfl, by decide⟩

/-- C4 witness: the amended join and the two-message scenario at a concrete
request. -/
theorem C4_system_extraction_witness :
    (toAnthropicRequest
        { model := "m", messages :=
            [{ role := "system", content := NewTextContent "You are helpful.", toolCallID := ""
               toolCalls := [] },
             { role := "system", content := NewTextContent "Be concise.", toolCallID := ""
               toolCalls := [] },
             { role := "user", content := NewTextContent "hi", toolCallID := "", toolCalls := [] }]
          temperature := none, maxTokens := none, topP := none, n := none, stop := []
          seed := none, user := "", stream := false, tools := [], toolChoice := none }).system
      = "You are helpful.\nBe concise." :=
  C4_system_extraction.2
    { model := "m", messages :=
        [{ role := "system", content := NewTextContent "You are helpful.", toolCallID := ""
           toolCalls := [] },
         { role := "system", content := NewTextContent "Be concise.", toolCallID := ""
           toolCalls := [] },
         { role := "user", content := NewTextContent "hi", toolCallID := "", toolCalls := [] }]
      temperature := none, maxTokens := none, topP := none, n := none, stop := []
      seed := none, user := "", stream := false, tools := [], toolChoice := none }
    rfl


/-- C7: `convertToolChoice` maps `"auto"` to the auto policy, `"required"` to
the any policy, `"none"` and every unrecognized shape to no policy, and an
object carrying `function.name` as a string to the forced-tool policy; the
tool-choice value never makes the dialect-B request translation fail — it
only ever changes the `tool_choice` field of the result. -/
theorem C7_convertToolChoice :
    convertToolChoice (.str "auto") = some { type := "auto", name := "" } ∧
    convertToolChoice (.str "required") = some { type := "any", name := "" } ∧
    convertToolChoice (.str "none") = none ∧
    (∀ (m fn : List (String × JsonValue)) (name : String),
        lookupKey m "function" = some (.obj fn) → lookupKey fn "name" = some (.str name) →
        convertToolChoice (.obj m) = some { type := "tool", name := name }) ∧
    (∀ v : JsonValue, convertToolChoice v = none ∨
        v = .str "auto" ∨ v = .str "required" ∨
        ∃ (m fn : List (String × JsonValue)) (name : String), v = .obj m ∧
          lookupKey m "function" = some (.obj fn) ∧ lookupKey fn "name" = some (.str name)) ∧
    (∀ (req : ChatRequest) (v : Option JsonValue),
        toAnthropicRequest { req with toolChoice := v } =
          { toAnthropicRequest req with
              toolChoice := match v with
                            | some tc => convertToolChoice tc
                            | none => none }) := by
  refine ⟨rfl, rfl, rfl, ?_, ?_, ?_⟩
  · intro m fn name h1 h2
    simp only [convertToolChoice, h1, h2]
  · intro v
    match v with
    | .null => exact Or.inl rfl
    | .bool b => exact Or.inl rfl
    | .num n => exact Or.inl rfl
    | .arr l => exact Or.inl rfl
    | .str s =>
        by_cases h1 : s = "auto"
        · subst h1; exact Or.inr (Or.inl rfl)
        · by_cases h2 : s = "required"
          · subst h2; exact Or.inr (Or.inr (Or.inl rfl))
          · refine Or.inl ?_
            rw [convertToolChoice]
            rw [if_neg h1, if_neg h2]
    | .obj m =>
        cases hf : lookupKey m "function" with
        | none => exact Or.inl (by simp only [convertToolChoice, hf])
        | some fv =>
            match fv with
            | .null | .bool _ | .num _ | .str _ | .arr _ =>
                exact Or.inl (by simp only [convertToolChoice, hf])
            | .obj fn =>
                cases hn : lookupKey fn "name" with
                | none => exact Or.inl (by simp only [convertToolChoice, hf, hn])
                | some nv =>
                    match nv with
                    | .null | .bool _ | .num _ | .arr _ | .obj _ =>
                        exact Or.inl (by simp only [convertToolChoice, hf, hn])
                    | .str name =>
                        exact Or.inr (Or.inr (Or.inr ⟨m, fn, name, rfl, hf, hn⟩))
  · intro req v
    rfl

/-- C7 witness: the forced-tool object case and the translation-totality
conjunct applied at concrete inputs. -/
theorem C7_convertToolChoice_witness :
    convertToolChoice (.obj [("function", .obj [("name", .str "get_weather")])])
      = some { type := "tool", name := "get_weather" } :=
  C7_convertToolChoice.2.2.2.1 [("function", .obj [("name", .str "get_weather")])]
    [("name", .str "get_weather")] "get_weather" rfl rfl


theorem strStarts_data_ne_empty (line : String) (h : strStarts line "data: " = true) :
    line ≠ "" := by
  intro hc
  subst hc
  simp [strStarts, List.isPrefixOf] at h

/-- C5: on a pulled data line of the dialect-A stream decoder the literal
`[DONE]` sentinel returns end-of-stream and not an error; any other payload is
handed to the combined chunk-or-error unmarshal, an embedded error object
superseding the chunk as an `APIError` built from its code, message and type,
and otherwise the parsed chunk is returned; parse failures surface as decode
errors and non-data lines are skipped. -/
theorem C5_openai_recv_data_line :
    (∀ (parse : String → Option StreamChunkOrError) (rest : List String),
        openaiRecvLoop parse ("data: [DONE]" :: rest) = (.eofResult, rest)) ∧
    (∀ (st : Int) (c msg t : String),
        (RecvResult.eofResult ≠ .apiError st c msg t) ∧ RecvResult.eofResult ≠ .decodeError) ∧
    (∀ (parse : String → Option StreamChunkOrError) (line : String) (rest : List String),
        strStarts line ":" = false → strStarts line "data: " = true →
        strDropN line 6 ≠ "[DONE]" →
        (parse (strDropN line 6) = none →
            openaiRecvLoop parse (line :: rest) = (.decodeError, rest)) ∧
        (∀ p e, parse (strDropN line 6) = some p → p.error = some e →
            openaiRecvLoop parse (line :: rest) = (.apiError 0 e.code e.message e.type, rest)) ∧
        (∀ p, parse (strDropN line 6) = some p → p.error = none →
            openaiRecvLoop parse (line :: rest) = (.chunk p.chunk, rest))) ∧
    (∀ (parse : String → Option StreamChunkOrError) (line : String) (rest : List String),
        (line = "" ∨ strStarts line ":" = true ∨ strStarts line "data: " = false) →
        openaiRecvLoop parse (line :: rest) = openaiRecvLoop parse rest) := by
  refine ⟨?_, ?_, ?_, ?_⟩
  · intro parse rest
    rfl
  · intro st c msg t
    exact ⟨by simp, by simp⟩
  · intro parse line rest h1 h2 h3
    have hne : line ≠ "" := strStarts_data_ne_empty line h2
    rw [openaiRecvLoop]
    rw [if_neg hne, if_neg (by simp [h1]), if_neg (by simp [h2])]
    simp only [if_neg h3]
    refine ⟨?_, ?_, ?_⟩
    · intro hp
      rw [hp]
    · intro p e hp he
      simp only [hp, he]
    · intro p hp he
      simp only [hp, he]
  · intro parse line rest h
    rcases h with h | h | h
    · subst h
      rw [openaiRecvLoop, if_pos rfl]
    · rw [openaiRecvLoop]
      by_cases he : line = ""
      · rw [if_pos he]
      · rw [if_neg he, if_pos (by simp [h])]
    · rw [openaiRecvLoop]
      by_cases he : line = ""
      · rw [if_pos he]
      · rw [if_neg he]
        by_cases hc : strStarts line ":" = true
        · rw [if_pos hc]
        · rw [if_neg hc, if_pos (by simp [h])]

/-- C5 witness: the data-line cases applied at concrete lines, payloads and
parse outcomes. -/
theorem C5_openai_recv_data_line_witness :
    openaiRecvLoop (fun d => if d = "\x7b\x7d" then
        some { chunk := { id := "c1", object := "", created := 0, model := "m", choices := [] }
               error := none }
      else none) ["data: \x7b\x7d"]
      = (.chunk { id := "c1", object := "", created := 0, model := "m", choices := [] }, []) :=
  ((C5_openai_recv_data_line.2.2.1
      (fun d => if d = "\x7b\x7d" then
          some { chunk := { id := "c1", object := "", created := 0, model := "m", choices := [] }
                 error := none }
        else none)
      "data: \x7b\x7d" [] (by decide) (by decide) (by decide)).2.2
    { chunk := { id := "c1", object := "", created := 0, model := "m", choices := [] }
      error := none } (by decide) rfl)

/-- C8: a closed stream never performs transport reads: once the closed flag
is set, `Recv` returns the `ErrStreamClosed` sentinel and leaves the
transport untouched, and every subsequent `Recv` after `Close` does the
same. -/
theorem C8_closed_stream_recv :
    (∀ (parse : String → Option StreamChunkOrError) (s : StreamState), s.closed = true →
        streamRecv parse s = (.streamClosed, s)) ∧
    (∀ (parse : String → Option StreamChunkOrError) (s : StreamState) (n : Nat),
        recvSeq parse (streamClose s) n = (.streamClosed, streamClose s)) := by
  have h1 : ∀ (parse : String → Option StreamChunkOrError) (s : StreamState), s.closed = true →
      streamRecv parse s = (.streamClosed, s) := by
    intro parse s h
    rw [streamRecv, if_pos h]
  refine ⟨h1, ?_⟩
  intro parse s n
  induction n with
  | zero => exact h1 parse (streamClose s) rfl
  | succ n ih =>
      rw [recvSeq, h1 parse (streamClose s) rfl]
      exact ih

/-- C8 witness: a closed stream with pending transport data still returns the
sentinel and consumes nothing. -/
theorem C8_closed_stream_recv_witness :
    streamRecv (fun _ => none) { closed := true, lines := ["data: x"] }
      = (.streamClosed, { closed := true, lines := ["data: x"] }) :=
  C8_closed_stream_recv.1 (fun _ => none) { closed := true, lines := ["data: x"] } rfl


theorem chunkDeltas_cons (c : StreamChunk) (cs : List StreamChunk) :
    chunkDeltas (c :: cs) = c.choices.map StreamChunkChoice.delta ++ chunkDeltas cs := rfl

theorem decode_blockEvents (bs : List AnthropicContentBlock) (n : Nat)
    (st : AnthropicDecodeState) (rest : List AnthropicEvent)
    (hb : ∀ b ∈ bs, b.type = "tool_use" ∨ b.type = "text") :
    chunkDeltas (anthropicDecodeAll st (blockEvents n bs ++ rest)).1
      = blockDeltas n bs ++ chunkDeltas (anthropicDecodeAll st rest).1 := by
  induction bs generalizing n with
  | nil => simp [blockEvents, blockDeltas]
  | cons b tail ih =>
      have hbt : b.type = "tool_use" ∨ b.type = "text" := hb b (List.mem_cons_self b tail)
      have htail : ∀ x ∈ tail, x.type = "tool_use" ∨ x.type = "text" :=
        fun x hx => hb x (List.mem_cons_of_mem b hx)
      rw [blockEvents]
      rcases hbt with ht | ht
      · rw [List.cons_append, List.cons_append]
        rw [anthropicDecodeAll_emit st st
            { id := st.msgID, object := "", created := 0, model := st.model
              choices := [{ index := 0, delta := toolStartDelta n b, finishReason := none }] } _ _
          (by rw [anthropicHandleEvent, if_pos ht]; rfl)]
        rw [anthropicDecodeAll_emit st st
            { id := st.msgID, object := "", created := 0, model := st.model
              choices := [{ index := 0, delta := toolArgsDelta n b, finishReason := none }] } _ _
          (by rw [anthropicHandleEvent, deltaForBlock, if_pos ht]; rfl)]
        rw [chunkDeltas_cons, chunkDeltas_cons, ih (n + 1) htail]
        rw [blockDeltas, if_pos ht]
        simp
      · have htu : ¬ b.type = "tool_use" := by rw [ht]; decide
        rw [List.cons_append, List.cons_append]
        rw [anthropicDecodeAll_skip st st _ _
          (by rw [anthropicHandleEvent, if_neg htu])]
        rw [anthropicDecodeAll_emit st st
            { id := st.msgID, object := "", created := 0, model := st.model
              choices := [{ index := 0, delta := textDelta b, finishReason := none }] } _ _
          (by rw [anthropicHandleEvent, deltaForBlock, if_neg htu]; rfl)]
        rw [chunkDeltas_cons, ih (n + 1) htail]
        rw [blockDeltas, if_neg htu]
        simp


theorem set_concat_length (l : List ToolCall) (a x : ToolCall) :
    (l ++ [a]).set l.length x = l ++ [x] := by
  induction l with
  | nil => rfl
  | cons h t ih => simp [List.set, ih]

theorem mergeToolCallAt_atEnd (l : List ToolCall) (dtc : ToolCall)
    (h : dtc.index = (l.length : Int)) :
    mergeToolCallAt l dtc = some (l ++ [(placeholderToolCall l.length).Merge dtc]) := by
  obtain ⟨r, h1, h2, h3, h4⟩ := mergeToolCallAt_spec l dtc l.length h
  rw [h1]
  congr 1
  apply List.ext_getElem?
  intro j
  rcases lt_trichotomy j l.length with hj | hj | hj
  · rw [h3 j (by omega), if_pos hj, List.getElem?_append, if_pos hj]
  · subst hj
    rw [h4, List.getElem?_append, if_neg (lt_irrefl _), Nat.sub_self]
    have hD : l.getD l.length (placeholderToolCall l.length) = placeholderToolCall l.length := by
      rw [List.getD_eq_getElem?_getD, List.getElem?_eq_none le_rfl]
      rfl
    rw [hD]
    rfl
  · rw [h3 j (by omega), if_neg (by omega), if_neg (by omega)]
    rw [List.getElem?_eq_none (by simp; omega)]

theorem mergeToolCallAt_inBoundsLast (base : List ToolCall) (entry : ToolCall) (dtc : ToolCall)
    (h : dtc.index = (base.length : Int)) :
    mergeToolCallAt (base ++ [entry]) dtc = some (base ++ [entry.Merge dtc]) := by
  obtain ⟨r, h1, h2, h3, h4⟩ := mergeToolCallAt_spec (base ++ [entry]) dtc base.length h
  rw [h1]
  congr 1
  have hlen : (base ++ [entry]).length = base.length + 1 := by simp
  apply List.ext_getElem?
  intro j
  rcases lt_trichotomy j base.length with hj | hj | hj
  · rw [h3 j (by omega), if_pos (by omega)]
    simp only [List.getElem?_append, if_pos hj]
  · subst hj
    have hE : (base ++ [entry])[base.length]? = some entry := by
      rw [List.getElem?_append, if_neg (lt_irrefl _), Nat.sub_self]
      rfl
    have hD : (base ++ [entry]).getD base.length (placeholderToolCall base.length) = entry := by
      rw [List.getD_eq_getElem?_getD, hE]
      rfl
    rw [h4, hD, List.getElem?_append, if_neg (lt_irrefl _), Nat.sub_self]
    rfl
  · rw [h3 j (by omega), if_neg (by omega), if_neg (by omega)]
    rw [List.getElem?_eq_none (by simp; omega)]

theorem Merge_placeholder (n : Nat) (t : ToolCall) :
    (placeholderToolCall n).Merge t =
      { index := (n : Int), id := t.id, type := t.type
        function := { name := t.function.name, arguments := t.function.arguments } } := by
  rw [ToolCall.Merge, placeholderToolCall]
  by_cases h1 : t.id = "" <;> by_cases h2 : t.type = "" <;>
    by_cases h3 : t.function.name = "" <;> simp_all

theorem Merge_argsOnly (t : ToolCall) (i : Int) (a : String) :
    t.Merge { index := i, id := "", type := "", function := { name := "", arguments := a } } =
      { t with function := { t.function with arguments := t.function.arguments ++ a } } := by
  rw [ToolCall.Merge]
  simp

theorem AppendDelta_noTools (m d : Message) (hd : d.toolCalls = []) :
    m.AppendDelta d =
      some { m with content := { m.content with text := m.content.text ++ d.content.text } } := by
  rw [Message.AppendDelta, hd]
  rfl


theorem optBind_some {α β : Type} (a : α) (k : α → Option β) : (some a >>= k) = k a := rfl

theorem AppendDelta_toolStart (msg : Message) (n : Nat) (b : AnthropicContentBlock)
    (hn : msg.toolCalls.length = n) :
    msg.AppendDelta (toolStartDelta n b) =
      some { msg with
              content := { msg.content with text := msg.content.text ++ "" }
              toolCalls := msg.toolCalls ++
                [{ index := (n : Int), id := b.id, type := "function"
                   function := { name := b.name, arguments := "" } }] } := by
  subst hn
  rw [Message.AppendDelta]
  rw [show (toolStartDelta msg.toolCalls.length b).toolCalls
      = [⟨(msg.toolCalls.length : Int), b.id, "function", ⟨b.name, ""⟩⟩] from rfl]
  rw [List.foldlM_cons]
  rw [mergeToolCallAt_atEnd msg.toolCalls
      ⟨(msg.toolCalls.length : Int), b.id, "function", ⟨b.name, ""⟩⟩ rfl]
  rw [optBind_some]
  rw [show List.foldlM mergeToolCallAt
      (msg.toolCalls ++ [(placeholderToolCall msg.toolCalls.length).Merge
        ⟨(msg.toolCalls.length : Int), b.id, "function", ⟨b.name, ""⟩⟩]) []
      = some (msg.toolCalls ++ [(placeholderToolCall msg.toolCalls.length).Merge
        ⟨(msg.toolCalls.length : Int), b.id, "function", ⟨b.name, ""⟩⟩]) from rfl]
  rw [Merge_placeholder]
  rfl

theorem AppendDelta_toolArgs (msg : Message) (entry : ToolCall) (base : List ToolCall)
    (n : Nat) (b : AnthropicContentBlock)
    (hm : msg.toolCalls = base ++ [entry]) (hn : base.length = n) :
    msg.AppendDelta (toolArgsDelta n b) =
      some { msg with
              content := { msg.content with text := msg.content.text ++ "" }
              toolCalls := base ++
                [{ entry with function := { entry.function with
                     arguments := entry.function.arguments ++ b.input } }] } := by
  subst hn
  rw [Message.AppendDelta]
  rw [show (toolArgsDelta base.length b).toolCalls
      = [⟨(base.length : Int), "", "", ⟨"", b.input⟩⟩] from rfl]
  rw [List.foldlM_cons, hm]
  rw [mergeToolCallAt_inBoundsLast base entry ⟨(base.length : Int), "", "", ⟨"", b.input⟩⟩ rfl]
  rw [optBind_some]
  rw [show List.foldlM mergeToolCallAt
      (base ++ [entry.Merge ⟨(base.length : Int), "", "", ⟨"", b.input⟩⟩]) []
      = some (base ++ [entry.Merge ⟨(base.length : Int), "", "", ⟨"", b.input⟩⟩]) from rfl]
  rw [Merge_argsOnly]
  rfl

theorem mergeDeltas_toolBlocks (bs : List AnthropicContentBlock) (msg : Message) (n : Nat)
    (hb : ∀ b ∈ bs, b.type = "tool_use") (hn : msg.toolCalls.length = n) :
    (blockDeltas n bs).foldlM Message.AppendDelta msg =
      some { msg with toolCalls := msg.toolCalls ++ seqToolCalls n bs } := by
  induction bs generalizing msg n with
  | nil =>
      simp [blockDeltas, seqToolCalls]
  | cons b tail ih =>
      have ht : b.type = "tool_use" := hb b (List.mem_cons_self b tail)
      rw [blockDeltas, if_pos ht]
      rw [List.foldlM_cons, AppendDelta_toolStart msg n b hn, optBind_some]
      rw [List.foldlM_cons]
      rw [AppendDelta_toolArgs _
        { index := (n : Int), id := b.id, type := "function"
          function := { name := b.name, arguments := "" } } msg.toolCalls n b rfl hn]
      rw [optBind_some]
      rw [ih _ (n + 1) (fun x hx => hb x (List.mem_cons_of_mem b hx)) (by simp [hn])]
      rw [seqToolCalls, if_pos ht]
      simp

theorem mergeDeltas_textBlocks (bs : List AnthropicContentBlock) (msg : Message) (n : Nat)
    (hb : ∀ b ∈ bs, b.type = "text") :
    (blockDeltas n bs).foldlM Message.AppendDelta msg =
      some { msg with content := { msg.content with
               text := msg.content.text ++ strConcat (bs.map AnthropicContentBlock.text) } } := by
  induction bs generalizing msg n with
  | nil =>
      simp [blockDeltas, strConcat]
  | cons b tail ih =>
      have ht : b.type = "text" := hb b (List.mem_cons_self b tail)
      have htu : ¬ b.type = "tool_use" := by rw [ht]; decide
      rw [blockDeltas, if_neg htu]
      rw [List.foldlM_cons, AppendDelta_noTools msg (textDelta b) rfl, optBind_some]
      rw [show (textDelta b).content = NewTextContent b.text from rfl]
      rw [ih _ (n + 1) (fun x hx => hb x (List.mem_cons_of_mem b hx))]
      rw [List.map_cons, strConcat_cons]
      simp [NewTextContent, String.append_assoc]

theorem blockEvents_append (l1 l2 : List AnthropicContentBlock) (n : Nat) :
    blockEvents n (l1 ++ l2) = blockEvents n l1 ++ blockEvents (n + l1.length) l2 := by
  induction l1 generalizing n with
  | nil => simp [blockEvents]
  | cons b tail ih =>
      rw [List.cons_append, blockEvents, ih (n + 1), blockEvents]
      simp only [List.length_cons, List.cons_append]
      have h : n + 1 + tail.length = n + (tail.length + 1) := by omega
      rw [h]

theorem seqToolCalls_nilOfText (l : List AnthropicContentBlock) (n : Nat)
    (h : ∀ b ∈ l, b.type = "text") : seqToolCalls n l = [] := by
  induction l generalizing n with
  | nil => rfl
  | cons b tail ih =>
      have ht : b.type = "text" := h b (List.mem_cons_self b tail)
      have htu : ¬ b.type = "tool_use" := by rw [ht]; decide
      rw [seqToolCalls, if_neg htu]
      exact ih n (fun x hx => h x (List.mem_cons_of_mem b hx))

theorem seqToolCalls_append_text (l1 l2 : List AnthropicContentBlock) (n : Nat)
    (h : ∀ b ∈ l2, b.type = "text") :
    seqToolCalls n (l1 ++ l2) = seqToolCalls n l1 := by
  induction l1 generalizing n with
  | nil => simpa using seqToolCalls_nilOfText l2 n h
  | cons b tail ih =>
      rw [List.cons_append, seqToolCalls, seqToolCalls]
      by_cases ht : b.type = "tool_use"
      · rw [if_pos ht, if_pos ht, ih]
      · rw [if_neg ht, if_neg ht, ih]

theorem blockTexts_append_tool (l1 l2 : List AnthropicContentBlock)
    (h : ∀ b ∈ l1, b.type = "tool_use") :
    blockTexts (l1 ++ l2) = blockTexts l2 := by
  rw [blockTexts, blockTexts, List.filter_append]
  have : l1.filter (fun b => b.type = "text") = [] := by
    rw [List.filter_eq_nil_iff]
    intro b hb
    have := h b hb
    simp [this]
  rw [this, List.nil_append]

theorem blockTexts_allText (l : List AnthropicContentBlock) (h : ∀ b ∈ l, b.type = "text") :
    blockTexts l = l.map AnthropicContentBlock.text := by
  rw [blockTexts]
  congr 1
  rw [List.filter_eq_self]
  intro b hb
  simp [h b hb]


/-- C2 (amended): for a dialect-B response whose `tool_use` blocks occupy the
leading block positions and which contains at most one text block, merging the
decoder's chunks for the corresponding event stream from an empty message
reproduces the content text and tool calls of `fromAnthropicResponse`.  (In
general the two paths disagree: the stream path concatenates text blocks with
no separator and numbers tool calls by block position, the non-stream path
joins with `"\n"` and renumbers tool calls 0, 1, ....) -/
theorem C2_stream_nonstream_agreement :
    ∀ (ar : AnthropicResponse) (tus txts : List AnthropicContentBlock),
      ar.content = tus ++ txts →
      (∀ b ∈ tus, b.type = "tool_use") →
      (∀ b ∈ txts, b.type = "text") →
      txts.length ≤ 1 →
      ∃ (merged : Message) (c : Choice),
        mergeDeltas emptyMessage
          (chunkDeltas (anthropicDecodeAll ⟨"", ""⟩ (eventsForResponse ar)).1) = some merged ∧
        (fromAnthropicResponse ar).choices = [c] ∧
        merged.content.Text = c.message.content.Text ∧
        merged.toolCalls = c.message.toolCalls := by
  intro ar tus txts hcontent htus htxts hlen
  have hdec : chunkDeltas (anthropicDecodeAll ⟨"", ""⟩ (eventsForResponse ar)).1
      = blockDeltas 0 tus ++ (blockDeltas (0 + tus.length) txts ++ [emptyMessage]) := by
    show chunkDeltas (anthropicDecodeAll ⟨"", ""⟩
        (.messageStart ar :: (blockEvents 0 ar.content ++
          [.messageDelta ⟨ar.stopReason, none⟩, .messageStop]))).1 = _
    rw [anthropicDecodeAll_skip ⟨"", ""⟩ ⟨ar.id, ar.model⟩ (.messageStart ar) _ rfl]
    rw [hcontent, blockEvents_append, List.append_assoc]
    rw [decode_blockEvents tus 0 _ _ (fun b hb => Or.inl (htus b hb))]
    rw [decode_blockEvents txts (0 + tus.length) _ _ (fun b hb => Or.inr (htxts b hb))]
    rfl
  have hmerge : mergeDeltas emptyMessage
      (blockDeltas 0 tus ++ (blockDeltas (0 + tus.length) txts ++ [emptyMessage]))
      = some { role := ""
               content := { text := ("" ++ strConcat (txts.map AnthropicContentBlock.text)) ++ ""
                            parts := none }
               toolCallID := ""
               toolCalls := ([] : List ToolCall) ++ seqToolCalls 0 tus } := by
    rw [mergeDeltas, List.foldlM_append, mergeDeltas_toolBlocks tus emptyMessage 0 htus rfl,
      optBind_some]
    rw [List.foldlM_append, mergeDeltas_textBlocks txts _ (0 + tus.length) htxts, optBind_some]
    rw [List.foldlM_cons, AppendDelta_noTools _ emptyMessage rfl, optBind_some]
    rfl
  have hch : (fromAnthropicResponse ar).choices
      = [{ index := 0
           message := { role := "assistant"
                        content := if (blockTexts ar.content).length > 0
                                   then NewTextContent (joinNL (blockTexts ar.content))
                                   else { text := "", parts := none }
                        toolCallID := ""
                        toolCalls := seqToolCalls 0 ar.content }
           finishReason := mapAnthropicStopReason ar.stopReason }] := by
    show [({ index := 0
             message := { role := "assistant"
                          content := if ((ar.content.foldl anthropicBlockStep ([], [])).1).length > 0
                                     then NewTextContent
                                       (joinNL (ar.content.foldl anthropicBlockStep ([], [])).1)
                                     else { text := "", parts := none }
                          toolCallID := ""
                          toolCalls := (ar.content.foldl anthropicBlockStep ([], [])).2 }
             finishReason := mapAnthropicStopReason ar.stopReason } : Choice)]
      = [({ index := 0
            message := { role := "assistant"
                         content := if (blockTexts ar.content).length > 0
                                    then NewTextContent (joinNL (blockTexts ar.content))
                                    else { text := "", parts := none }
                         toolCallID := ""
                         toolCalls := seqToolCalls 0 ar.content }
            finishReason := mapAnthropicStopReason ar.stopReason } : Choice)]
    rw [anthropicBlocksFold]
    simp only [List.nil_append, List.length_nil]
  refine ⟨{ role := ""
            content := { text := ("" ++ strConcat (txts.map AnthropicContentBlock.text)) ++ ""
                         parts := none }
            toolCallID := ""
            toolCalls := ([] : List ToolCall) ++ seqToolCalls 0 tus }, _, ?_, hch, ?_, ?_⟩
  · rw [hdec]
    exact hmerge
  · show (("" ++ strConcat (txts.map AnthropicContentBlock.text)) ++ "" : String) = _
    rw [hcontent, blockTexts_append_tool tus txts htus, blockTexts_allText txts htxts]
    rcases txts with - | ⟨t, - | ⟨t2, rest⟩⟩
    · simp only [List.map_nil, strConcat, List.foldl_nil, List.length_nil]
      rfl
    · simp only [List.map_cons, List.map_nil, List.length_cons, List.length_nil]
      rw [if_pos (by omega)]
      rw [strConcat_cons]
      show ("" ++ (t.text ++ strConcat []) ++ "" : String) = joinNL [t.text]
      simp [strConcat, joinNL]
    · exact absurd hlen (by simp)
  · show ([] : List ToolCall) ++ seqToolCalls 0 tus = _
    rw [hcontent, seqToolCalls_append_text tus txts 0 htxts]
    simp


theorem growTwo_eval : growToolCalls [] 1 = [placeholderToolCall 0, placeholderToolCall 1] := by
  rw [growToolCalls_closed]
  rfl

theorem mergeAtOne_eval :
    mergeToolCallAt [] (⟨1, "tid", "function", ⟨"f", ""⟩⟩ : ToolCall)
      = some [placeholderToolCall 0, ⟨1, "tid", "function", ⟨"f", ""⟩⟩] := by
  obtain ⟨r, h1, h2, h3, h4⟩ :=
    mergeToolCallAt_spec [] (⟨1, "tid", "function", ⟨"f", ""⟩⟩ : ToolCall) 1 rfl
  rw [h1]
  congr 1
  apply List.ext_getElem?
  intro j
  match j with
  | 0 =>
      rw [h3 0 (by omega)]
      simp only [List.length_nil, Nat.lt_irrefl, if_false, h2]
      rfl
  | 1 =>
      rw [h4]
      rw [show List.getD ([] : List ToolCall) 1 (placeholderToolCall 1) = placeholderToolCall 1
        from rfl]
      rw [Merge_placeholder]
      rfl
  | (n + 2) =>
      rw [h3 (n + 2) (by omega)]
      rw [if_neg (by simp), if_neg (by rw [h2]; simp)]
      rfl

/-- C2 counterexample: (i) a response with two text blocks `"A"`, `"B"` —
the streamed reconstruction gives `"AB"` while the non-stream translator
gives `"A\nB"`; (ii) a response with a text block before a `tool_use`
block — the streamed path stores the tool call at block index 1 behind a
placeholder while the non-stream path renumbers it to index 0. -/
theorem C2_stream_nonstream_counterexample :
    ((mergeDeltas emptyMessage (chunkDeltas (anthropicDecodeAll ⟨"", ""⟩ (eventsForResponse
        ⟨"id1", "message", "assistant", "m1",
         [⟨"text", "A", "", "", "", "", ""⟩, ⟨"text", "B", "", "", "", "", ""⟩],
         "end_turn", none, ⟨1, 1⟩⟩)).1)).map (fun m => m.content.Text) = some "AB" ∧
      (fromAnthropicResponse
        ⟨"id1", "message", "assistant", "m1",
         [⟨"text", "A", "", "", "", "", ""⟩, ⟨"text", "B", "", "", "", "", ""⟩],
         "end_turn", none, ⟨1, 1⟩⟩).choices.map (fun c => c.message.content.Text)
        = ["A\nB"] ∧
      ("AB" : String) ≠ "A\nB") ∧
    ((mergeDeltas emptyMessage (chunkDeltas (anthropicDecodeAll ⟨"", ""⟩ (eventsForResponse
        ⟨"id2", "message", "assistant", "m2",
         [⟨"text", "T", "", "", "", "", ""⟩, ⟨"tool_use", "", "tid", "f", "\x7b\x7d", "", ""⟩],
         "tool_use", none, ⟨1, 1⟩⟩)).1)).map (fun m => m.toolCalls)
        = some [placeholderToolCall 0, ⟨1, "tid", "function", ⟨"f", "\x7b\x7d"⟩⟩] ∧
      (fromAnthropicResponse
        ⟨"id2", "message", "assistant", "m2",
         [⟨"text", "T", "", "", "", "", ""⟩, ⟨"tool_use", "", "tid", "f", "\x7b\x7d", "", ""⟩],
         "tool_use", none, ⟨1, 1⟩⟩).choices.map (fun c => c.message.toolCalls)
        = [[⟨0, "tid", "function", ⟨"f", "\x7b\x7d"⟩⟩]] ∧
      ([placeholderToolCall 0, ⟨1, "tid", "function", ⟨"f", "\x7b\x7d"⟩⟩] : List ToolCall)
        ≠ [⟨0, "tid", "function", ⟨"f", "\x7b\x7d"⟩⟩]) := by
  refine ⟨⟨rfl, rfl, by decide⟩, ⟨?_, rfl, by decide⟩⟩
  have hds : chunkDeltas (anthropicDecodeAll ⟨"", ""⟩ (eventsForResponse
      ⟨"id2", "message", "assistant", "m2",
       [⟨"text", "T", "", "", "", "", ""⟩, ⟨"tool_use", "", "tid", "f", "\x7b\x7d", "", ""⟩],
       "tool_use", none, ⟨1, 1⟩⟩)).1
      = [{ emptyMessage with content := NewTextContent "T" },
         { role := "assistant", content := { text := "", parts := none }, toolCallID := ""
           toolCalls := [⟨1, "tid", "function", ⟨"f", ""⟩⟩] },
         { emptyMessage with toolCalls := [⟨1, "", "", ⟨"", "\x7b\x7d"⟩⟩] },
         emptyMessage] := rfl
  rw [hds, mergeDeltas]
  rw [List.foldlM_cons, show Message.AppendDelta emptyMessage
      { emptyMessage with content := NewTextContent "T" }
      = some { role := "", content := { text := "T", parts := none }, toolCallID := ""
               toolCalls := [] } from rfl, optBind_some]
  rw [List.foldlM_cons]
  rw [show Message.AppendDelta
      { role := "", content := { text := "T", parts := none }, toolCallID := "", toolCalls := [] }
      { role := "assistant", content := { text := "", parts := none }, toolCallID := ""
        toolCalls := [⟨1, "tid", "function", ⟨"f", ""⟩⟩] }
      = some { role := "", content := { text := "T", parts := none }, toolCallID := ""
               toolCalls := [placeholderToolCall 0, ⟨1, "tid", "function", ⟨"f", ""⟩⟩] } by
    rw [Message.AppendDelta]
    rw [show List.foldlM mergeToolCallAt
        ([] : List ToolCall) [(⟨1, "tid", "function", ⟨"f", ""⟩⟩ : ToolCall)]
        = mergeToolCallAt [] (⟨1, "tid", "function", ⟨"f", ""⟩⟩ : ToolCall) >>=
            (fun b => List.foldlM mergeToolCallAt b []) from rfl]
    rw [mergeAtOne_eval, optBind_some]
    rfl]
  rw [optBind_some, List.foldlM_cons]
  rw [show Message.AppendDelta
      { role := "", content := { text := "T", parts := none }, toolCallID := ""
        toolCalls := [placeholderToolCall 0, ⟨1, "tid", "function", ⟨"f", ""⟩⟩] }
      { emptyMessage with toolCalls := [⟨1, "", "", ⟨"", "\x7b\x7d"⟩⟩] }
      = some { role := "", content := { text := "T", parts := none }, toolCallID := ""
               toolCalls := [placeholderToolCall 0,
                             ⟨1, "tid", "function", ⟨"f", "\x7b\x7d"⟩⟩] } by
    rw [Message.AppendDelta]
    rw [show List.foldlM mergeToolCallAt
        [placeholderToolCall 0, (⟨1, "tid", "function", ⟨"f", ""⟩⟩ : ToolCall)]
        [(⟨1, "", "", ⟨"", "\x7b\x7d"⟩⟩ : ToolCall)]
        = mergeToolCallAt [placeholderToolCall 0, ⟨1, "tid", "function", ⟨"f", ""⟩⟩]
            (⟨1, "", "", ⟨"", "\x7b\x7d"⟩⟩ : ToolCall) >>=
            (fun b => List.foldlM mergeToolCallAt b []) from rfl]
    rw [show ([placeholderToolCall 0, (⟨1, "tid", "function", ⟨"f", ""⟩⟩ : ToolCall)])
        = [placeholderToolCall 0] ++ [⟨1, "tid", "function", ⟨"f", ""⟩⟩] from rfl]
    rw [mergeToolCallAt_inBoundsLast [placeholderToolCall 0]
        (⟨1, "tid", "function", ⟨"f", ""⟩⟩ : ToolCall)
        (⟨1, "", "", ⟨"", "\x7b\x7d"⟩⟩ : ToolCall) rfl]
    rw [optBind_some]
    rfl]
  rw [optBind_some, List.foldlM_cons]
  rw [show Message.AppendDelta
      { role := "", content := { text := "T", parts := none }, toolCallID := ""
        toolCalls := [placeholderToolCall 0, ⟨1, "tid", "function", ⟨"f", "\x7b\x7d"⟩⟩] }
      emptyMessage
      = some { role := "", content := { text := "T", parts := none }, toolCallID := ""
               toolCalls := [placeholderToolCall 0,
                             ⟨1, "tid", "function", ⟨"f", "\x7b\x7d"⟩⟩] } from rfl]
  rw [optBind_some]
  rfl


/-- C2 witness: the amended agreement applied to a concrete response with one
leading `tool_use` block and one trailing text block. -/
theorem C2_stream_nonstream_agreement_witness :
    ∃ (merged : Message) (c : Choice),
      mergeDeltas emptyMessage
        (chunkDeltas (anthropicDecodeAll ⟨"", ""⟩ (eventsForResponse
          ⟨"idw", "message", "assistant", "mw",
           [⟨"tool_use", "", "tw", "get_weather", "\x7b\x7d", "", ""⟩,
            ⟨"text", "Sunny.", "", "", "", "", ""⟩],
           "tool_use", none, ⟨2, 3⟩⟩)).1) = some merged ∧
      (fromAnthropicResponse
        ⟨"idw", "message", "assistant", "mw",
         [⟨"tool_use", "", "tw", "get_weather", "\x7b\x7d", "", ""⟩,
          ⟨"text", "Sunny.", "", "", "", "", ""⟩],
         "tool_use", none, ⟨2, 3⟩⟩).choices = [c] ∧
      merged.content.Text = c.message.content.Text ∧
      merged.toolCalls = c.message.toolCalls :=
  C2_stream_nonstream_agreement
    ⟨"idw", "message", "assistant", "mw",
     [⟨"tool_use", "", "tw", "get_weather", "\x7b\x7d", "", ""⟩,
      ⟨"text", "Sunny.", "", "", "", "", ""⟩],
     "tool_use", none, ⟨2, 3⟩⟩
    [⟨"tool_use", "", "tw", "get_weather", "\x7b\x7d", "", ""⟩]
    [⟨"text", "Sunny.", "", "", "", "", ""⟩]
    rfl (by decide) (by decide) (by decide)

end Aimodel
